import Mathlib

set_option linter.unusedVariables false

/-!
Shallow embedding of the recipe-ingredient network visualization script
(src/022_waveNvibe_streamlit.py) and proofs about its filtering pipeline,
edge-color mapping, hover-highlight handlers and load-error handling.

The script's pipeline is:
  raw_edges.sort_values(by = weight, ascending = False).head(limit_edges)
followed by a single forward scan that admits endpoint nodes whose count
passes the threshold and keeps an edge exactly when both endpoints are in
the admitted set at that moment.

The pandas descending sort is modelled faithfully to its implementation:
for a descending sort, pandas nargsort first reverses the values and the
index array, then computes an ascending argsort of the reversed values, and
finally reverses the resulting indexer.  For the array sizes handled here
the underlying numpy argsort behaves as a stable insertion sort, so the
model is: reverse the index-enumerated rows, stable ascending insertion
sort by weight, reverse the result.  The two reversals cancel on ties, so
rows of equal weight come out in original input order (the behavior pinned
by pandas regression test test_stable_descending_sort, GH 6399).
-/

/-- One row of the edge table: source id, target id, weight
(columns source, target, weight of raw_edges). -/
structure Edge where
  source : String
  target : String
  weight : Nat
  deriving DecidableEq, Repr

/-- The node table after set_index: a node id mapped to its record, where the
record may lack the count attribute (modelled as the inner Option). -/
abbrev NodeTable := List (String × Option Nat)

/-- The record lookup node_info_dict.get(id, ...): some record when the id is a
key of the table, none when absent. -/
def findRecord (t : NodeTable) (id : String) : Option (Option Nat) :=
  (t.find? (fun p => p.1 == id)).map Prod.snd

/-- The count lookup of the scan loop:
info = node_info_dict.get(id, empty dict); count = info.get(count, 0).
A missing id and a record without a count attribute both yield 0. -/
def lookupCount (t : NodeTable) (id : String) : Nat :=
  match findRecord t id with
  | some (some c) => c
  | some none => 0
  | none => 0

/-- The tooltip string built by net.add_node:
title = id, newline, parenthesized occurrence count (Korean label). -/
def nodeTitle (t : NodeTable) (id : String) : String :=
  id ++ "\n(등장 횟수: " ++ toString (lookupCount t id) ++ ")"

/-- The comparison the pandas ascending argsort applies to the weight column,
lifted to index-enumerated rows.  The comparison itself ignores the index;
stability of the sort is what keeps equal-weight rows in input order. -/
def weightLE (a b : Nat × Edge) : Prop := a.2.weight ≤ b.2.weight

instance : DecidableRel weightLE := fun a b => Nat.decLe a.2.weight b.2.weight

/-- The pandas descending sort as implemented by nargsort: reverse the
index-enumerated rows (nargsort reverses values and index array up front for
a descending sort), stable ascending sort by weight, then reverse the
resulting order.  The two reversals cancel on equal weights, so ties keep the
original input order. -/
def pandasSortDesc (edges : List Edge) : List (Nat × Edge) :=
  ((edges.enum.reverse).insertionSort weightLE).reverse

/-- raw_edges.sort_values(by = weight, ascending = False): the row order the
scan loop sees, with the bookkeeping indices dropped. -/
def sortEdgesDesc (edges : List Edge) : List Edge :=
  (pandasSortDesc edges).map Prod.snd

/-- One conditional node admission of the scan loop: if the id is not yet in
added_nodes and its count passes the threshold, add it (net.add_node plus
added_nodes.add); otherwise leave the admitted set unchanged. -/
def addNode (t : NodeTable) (minC : Nat) (added : List String) (n : String) :
    List String :=
  if n ∈ added then added
  else if minC ≤ lookupCount t n then n :: added
  else added

/-- Mutable state of the scan loop: the admitted-node set added_nodes
(modelled as a duplicate-free list) and the edges handed to net.add_edge so
far, in emission order. -/
structure ScanState where
  added : List String
  edges : List Edge
  deriving DecidableEq, Repr

/-- One iteration of the scan loop over df_edges_sorted.itertuples():
try to admit the source, then the target, then keep the edge exactly when
both endpoints are in added_nodes at that point. -/
def processEdge (t : NodeTable) (minC : Nat) (st : ScanState) (e : Edge) :
    ScanState :=
  let a1 := addNode t minC st.added e.source
  let a2 := addNode t minC a1 e.target
  if e.source ∈ a2 ∧ e.target ∈ a2 then ⟨a2, st.edges ++ [e]⟩
  else ⟨a2, st.edges⟩

/-- The whole scan loop, started from an empty added_nodes set and an empty
edge accumulator. -/
def scanEdges (t : NodeTable) (minC : Nat) (l : List Edge) : ScanState :=
  l.foldl (processEdge t minC) ⟨[], []⟩

/-- The visible-subgraph selection of the script: sort edges by weight
descending (pandas semantics), truncate to the first maxEdges rows, then run
the scan loop.  Returns (visibleEdges, visibleNodes). -/
def selectSubgraph (t : NodeTable) (edges : List Edge) (maxEdges minC : Nat) :
    List Edge × List String :=
  let st := scanEdges t minC ((sortEdgesDesc edges).take maxEdges)
  (st.edges, st.added)

/-- get_edge_color of the script: a step function of the weight choosing an
alpha, substituted into a fixed rgba base color string. -/
def get_edge_color (weight : Nat) : String :=
  let alpha : String :=
    if weight ≤ 50 then "0.1"
    else if weight ≤ 150 then "0.3"
    else if weight ≤ 300 then "0.5"
    else if weight ≤ 500 then "0.7"
    else "1.0"
  "rgba(100, 100, 100, " ++ alpha ++ ")"

/-- The ordered alpha table the spec prescribes for the edge-color mapping:
pairs of (upper bound, alpha), first match wins, default alpha 1.0. -/
def specAlphaTable : List (Nat × String) :=
  [(50, "0.1"), (150, "0.3"), (300, "0.5"), (500, "0.7")]

/-- Modelled from the spec (refinement side of the edge-color claim): walk the
ordered (upperBound, alpha) table and take the first entry whose bound is not
exceeded, defaulting to alpha 1.0. -/
def specAlpha (w : Nat) : String :=
  match specAlphaTable.find? (fun p => decide (w ≤ p.1)) with
  | some p => p.2
  | none => "1.0"

/-- Boolean form of the admission threshold count >= min_node_count. -/
def passB (t : NodeTable) (minC : Nat) (n : String) : Bool :=
  decide (minC ≤ lookupCount t n)

/-- Boolean form of the edge-inclusion condition: both endpoints pass. -/
def edgeKept (t : NodeTable) (minC : Nat) (e : Edge) : Bool :=
  passB t minC e.source && passB t minC e.target

/-- The relation that characterizes the pandas descending sort output on
index-enumerated rows: weight strictly decreasing, or equal weight with the
original row index strictly increasing (ties keep original input order). -/
def descLex (a b : Nat × Edge) : Prop :=
  b.2.weight < a.2.weight ∨ (a.2.weight = b.2.weight ∧ a.1 < b.1)

/-- Weight-ascending order with a parametric tie-break relation on the
original row indices: the shape of a stable insertion-sort output on
enumerated rows whose indices are pairwise related by idxR in input order. -/
def ascLexOf (idxR : Nat → Nat → Prop) (a b : Nat × Edge) : Prop :=
  a.2.weight < b.2.weight ∨ (a.2.weight = b.2.weight ∧ idxR a.1 b.1)

/-- The font object stored in a vis node item; both attributes are optional
because updates may supply only one of them and the stored object is replaced
wholesale by an update. -/
structure FontSpec where
  fsize : Option Nat
  fcolor : Option String
  deriving DecidableEq, Repr

/-- The visual attributes of one node item in the client-side vis DataSet that
the hover handlers touch: size, color, font. -/
structure NodeStyle where
  size : Nat
  color : String
  font : FontSpec
  deriving DecidableEq, Repr

/-- One element of the updates array pushed by the handlers: any attribute may
be absent, and nodes.update merges item attributes shallowly, so an absent
attribute keeps its previous value while a present font object replaces the
stored font object entirely. -/
structure NodeUpdate where
  usize : Option Nat
  ucolor : Option String
  ufont : Option FontSpec
  deriving DecidableEq, Repr

/-- Shallow merge performed by nodes.update for one item. -/
def applyUpdate (s : NodeStyle) (u : NodeUpdate) : NodeStyle :=
  ⟨u.usize.getD s.size, u.ucolor.getD s.color, u.ufont.getD s.font⟩

/-- The style net.add_node gives every node: size 25, orange, white font of
size 14. -/
def initialStyle : NodeStyle :=
  ⟨25, "#FF9F1C", ⟨some 14, some "white"⟩⟩

/-- The update pushed for a connected node on hoverNode: size 45, font size 25
white, original orange color. -/
def emphUpdate : NodeUpdate :=
  ⟨some 45, some "#FF9F1C", some ⟨some 25, some "white"⟩⟩

/-- The update pushed for a non-connected node on hoverNode: light gray color
and gray font color only; note that no size is supplied. -/
def dimUpdate : NodeUpdate :=
  ⟨none, some "#E0E0E0", some ⟨none, some "#888888"⟩⟩

/-- The update pushed for every node on blurNode: size 25, font size 14 white,
original orange color. -/
def blurUpdate : NodeUpdate :=
  ⟨some 25, some "#FF9F1C", some ⟨some 14, some "white"⟩⟩

/-- connectedSet of the hoverNode handler:
network.getConnectedNodes(hovered) plus the hovered node itself, as a
membership test over the rendered edge list. -/
def inConnectedSet (es : List Edge) (hovered n : String) : Bool :=
  n == hovered ||
    es.any (fun e =>
      (e.source == hovered && e.target == n) ||
      (e.target == hovered && e.source == n))

/-- The hoverNode handler: for every rendered node id, push the emphasize
update when it is in the connected set and the dim update otherwise, then
apply the whole batch with nodes.update.  Ids outside the rendered DataSet are
untouched. -/
def hoverEnter (es : List Edge) (visible : List String) (hovered : String)
    (st : String → NodeStyle) : String → NodeStyle :=
  fun n =>
    if n ∈ visible then
      applyUpdate (st n) (if inConnectedSet es hovered n then emphUpdate else dimUpdate)
    else st n

/-- The blurNode handler: restore every rendered node to the original size,
font and color. -/
def blurNode (visible : List String) (st : String → NodeStyle) :
    String → NodeStyle :=
  fun n => if n ∈ visible then applyUpdate (st n) blurUpdate else st n

/-- Outcome of the data-load section of the script. -/
inductive LoadError where
  /-- open(filepath) raised FileNotFoundError: the file is missing. -/
  | fileNotFound : LoadError
  /-- the file exists but pickle.load (or open) raised some other error:
  the file is unreadable. -/
  | unreadable : LoadError
  deriving DecidableEq, Repr

/-- What one run of the script produces. -/
inductive Outcome where
  /-- st.error(msg) followed by st.stop(): an error box is shown and the run
  ends before any further statement. -/
  | errorStop : String → Outcome
  /-- an uncaught exception: the framework displays the exception to the user
  and the run ends before any further statement. -/
  | exceptionHalt : Outcome
  /-- the graph was computed and handed to the renderer. -/
  | rendered : List Edge × List String → Outcome
  deriving DecidableEq, Repr

/-- True when the outcome is a fatal error surfaced to the user instead of a
rendering. -/
def Outcome.reportsFatalError : Outcome → Bool
  | .errorStop _ => true
  | .exceptionHalt => true
  | .rendered _ => false

/-- The top-level control flow of the script around the data load: the try
block catches only FileNotFoundError (st.error plus st.stop); any other load
failure propagates as an uncaught exception; on success the filtering pipeline
runs and its result is rendered. -/
def runApp (load : Except LoadError (NodeTable × List Edge))
    (maxEdges minC : Nat) : Outcome :=
  match load with
  | .error .fileNotFound => .errorStop "파일을 찾을 수 없습니다"
  | .error .unreadable => .exceptionHalt
  | .ok d => .rendered (selectSubgraph d.1 d.2 maxEdges minC)

/-! ### Helper lemmas about the scan loop -/

theorem mem_addNode {t : NodeTable} {minC : Nat} {a : List String}
    {m n : String} :
    n ∈ addNode t minC a m ↔ n ∈ a ∨ (n = m ∧ minC ≤ lookupCount t m) := by
  unfold addNode
  split_ifs with h1 h2
  · constructor
    · exact fun h => Or.inl h
    · rintro (h | ⟨rfl, _⟩)
      · exact h
      · exact h1
  · simp only [List.mem_cons]
    constructor
    · rintro (rfl | h)
      · exact Or.inr ⟨rfl, h2⟩
      · exact Or.inl h
    · rintro (h | ⟨rfl, _⟩)
      · exact Or.inr h
      · exact Or.inl rfl
  · constructor
    · exact fun h => Or.inl h
    · rintro (h | ⟨rfl, hc⟩)
      · exact h
      · exact absurd hc h2

theorem addNode_pass {t : NodeTable} {minC : Nat} {a : List String}
    {m : String} (ha : ∀ x ∈ a, minC ≤ lookupCount t x) :
    ∀ x ∈ addNode t minC a m, minC ≤ lookupCount t x := by
  intro x hx
  rcases mem_addNode.mp hx with h | ⟨rfl, hc⟩
  · exact ha x h
  · exact hc

theorem addNode_nodup {t : NodeTable} {minC : Nat} {a : List String}
    {m : String} (h : a.Nodup) : (addNode t minC a m).Nodup := by
  unfold addNode
  split_ifs with h1 h2
  · exact h
  · exact List.nodup_cons.mpr ⟨h1, h⟩
  · exact h

theorem processEdge_added (t : NodeTable) (minC : Nat) (st : ScanState)
    (e : Edge) :
    (processEdge t minC st e).added =
      addNode t minC (addNode t minC st.added e.source) e.target := by
  simp only [processEdge]
  split <;> rfl

theorem processEdge_edges (t : NodeTable) (minC : Nat) (st : ScanState)
    (e : Edge) (hst : ∀ x ∈ st.added, minC ≤ lookupCount t x) :
    (processEdge t minC st e).edges =
      if edgeKept t minC e then st.edges ++ [e] else st.edges := by
  have hsrc : e.source ∈
      addNode t minC (addNode t minC st.added e.source) e.target ↔
      minC ≤ lookupCount t e.source := by
    rw [mem_addNode, mem_addNode]
    constructor
    · rintro ((h | ⟨_, hc⟩) | ⟨heq, hc⟩)
      · exact hst _ h
      · exact hc
      · rw [heq]; exact hc
    · intro h
      exact Or.inl (Or.inr ⟨rfl, h⟩)
  have htgt : e.target ∈
      addNode t minC (addNode t minC st.added e.source) e.target ↔
      minC ≤ lookupCount t e.target := by
    rw [mem_addNode, mem_addNode]
    constructor
    · rintro ((h | ⟨heq, hc⟩) | ⟨_, hc⟩)
      · exact hst _ h
      · rw [heq]; exact hc
      · exact hc
    · intro h
      exact Or.inr ⟨rfl, h⟩
  simp only [processEdge]
  by_cases hs : minC ≤ lookupCount t e.source <;>
    by_cases ht : minC ≤ lookupCount t e.target <;>
      simp [edgeKept, passB, hs, ht, hsrc, htgt]

theorem scan_foldl_added_mem (t : NodeTable) (minC : Nat) :
    ∀ (l : List Edge) (st : ScanState) (n : String),
      n ∈ (l.foldl (processEdge t minC) st).added ↔
        n ∈ st.added ∨
          ∃ e ∈ l, (n = e.source ∨ n = e.target) ∧ minC ≤ lookupCount t n := by
  intro l
  induction l with
  | nil =>
    intro st n
    simp
  | cons e l ih =>
    intro st n
    rw [List.foldl_cons, ih]
    rw [processEdge_added, mem_addNode, mem_addNode]
    constructor
    · rintro (((h | ⟨rfl, hc⟩) | ⟨rfl, hc⟩) | ⟨f, hf, hp, hc⟩)
      · exact Or.inl h
      · exact Or.inr ⟨e, List.mem_cons_self e l, Or.inl rfl, hc⟩
      · exact Or.inr ⟨e, List.mem_cons_self e l, Or.inr rfl, hc⟩
      · exact Or.inr ⟨f, List.mem_cons_of_mem e hf, hp, hc⟩
    · rintro (h | ⟨f, hf, hp, hc⟩)
      · exact Or.inl (Or.inl (Or.inl h))
      · rcases List.mem_cons.mp hf with rfl | hf2
        · rcases hp with rfl | rfl
          · exact Or.inl (Or.inl (Or.inr ⟨rfl, hc⟩))
          · exact Or.inl (Or.inr ⟨rfl, hc⟩)
        · exact Or.inr ⟨f, hf2, hp, hc⟩

theorem scan_foldl_added_pass (t : NodeTable) (minC : Nat) :
    ∀ (l : List Edge) (st : ScanState),
      (∀ x ∈ st.added, minC ≤ lookupCount t x) →
      ∀ x ∈ (l.foldl (processEdge t minC) st).added, minC ≤ lookupCount t x := by
  intro l st hst x hx
  rcases (scan_foldl_added_mem t minC l st x).mp hx with h | ⟨_, _, _, hc⟩
  · exact hst x h
  · exact hc

theorem scan_foldl_added_nodup (t : NodeTable) (minC : Nat) :
    ∀ (l : List Edge) (st : ScanState),
      st.added.Nodup → (l.foldl (processEdge t minC) st).added.Nodup := by
  intro l
  induction l with
  | nil =>
    intro st h
    exact h
  | cons e l ih =>
    intro st hst
    rw [List.foldl_cons]
    refine ih _ ?_
    rw [processEdge_added]
    exact addNode_nodup (addNode_nodup hst)

theorem scan_foldl_edges (t : NodeTable) (minC : Nat) :
    ∀ (l : List Edge) (st : ScanState),
      (∀ x ∈ st.added, minC ≤ lookupCount t x) →
      (l.foldl (processEdge t minC) st).edges =
        st.edges ++ l.filter (edgeKept t minC) := by
  intro l
  induction l with
  | nil =>
    intro st _
    simp
  | cons e l ih =>
    intro st hst
    rw [List.foldl_cons]
    have hinv : ∀ x ∈ (processEdge t minC st e).added,
        minC ≤ lookupCount t x := by
      intro x hx
      rw [processEdge_added] at hx
      exact addNode_pass (addNode_pass hst) x hx
    rw [ih _ hinv, processEdge_edges t minC st e hst]
    by_cases hk : edgeKept t minC e <;> simp [hk, List.filter_cons]

/-- Characterization of the admitted-node output: a node is visible exactly
when it occurs as an endpoint of a truncated edge and its count passes the
threshold. -/
theorem visibleNodes_char (t : NodeTable) (edges : List Edge)
    (maxEdges minC : Nat) (n : String) :
    n ∈ (selectSubgraph t edges maxEdges minC).2 ↔
      (∃ e ∈ (sortEdgesDesc edges).take maxEdges,
        n = e.source ∨ n = e.target) ∧ minC ≤ lookupCount t n := by
  unfold selectSubgraph scanEdges
  rw [scan_foldl_added_mem]
  constructor
  · rintro (h | ⟨e, he, hp, hc⟩)
    · simp at h
    · exact ⟨⟨e, he, hp⟩, hc⟩
  · rintro ⟨⟨e, he, hp⟩, hc⟩
    exact Or.inr ⟨e, he, hp, hc⟩

/-- Characterization of the edge output: the truncated, weight-sorted edge
list filtered by the condition that both endpoints pass the threshold. -/
theorem visibleEdges_char (t : NodeTable) (edges : List Edge)
    (maxEdges minC : Nat) :
    (selectSubgraph t edges maxEdges minC).1 =
      ((sortEdgesDesc edges).take maxEdges).filter (edgeKept t minC) := by
  unfold selectSubgraph scanEdges
  dsimp only
  rw [scan_foldl_edges]
  · rfl
  · intro x hx
    simp at hx

theorem visibleNodes_nodup (t : NodeTable) (edges : List Edge)
    (maxEdges minC : Nat) :
    (selectSubgraph t edges maxEdges minC).2.Nodup := by
  unfold selectSubgraph scanEdges
  exact scan_foldl_added_nodup t minC _ _ List.nodup_nil

/-! ### Helper lemmas about the pandas descending sort -/

theorem orderedInsert_lex (idxR : Nat → Nat → Prop) (a : Nat × Edge) :
    ∀ (m : List (Nat × Edge)), (∀ b ∈ m, idxR a.1 b.1) →
      m.Pairwise (ascLexOf idxR) →
      (m.orderedInsert weightLE a).Pairwise (ascLexOf idxR) := by
  intro m
  induction m with
  | nil =>
    intro _ _
    simp
  | cons b m ih =>
    intro hi hm
    rcases List.pairwise_cons.mp hm with ⟨hb, hm2⟩
    by_cases h : weightLE a b
    · rw [List.orderedInsert, if_pos h]
      refine List.pairwise_cons.mpr ⟨?_, hm⟩
      intro c hc
      rcases List.mem_cons.mp hc with rfl | hc2
      · rcases Nat.lt_or_ge a.2.weight c.2.weight with hlt | hge
        · exact Or.inl hlt
        · have heq : a.2.weight = c.2.weight := Nat.le_antisymm h hge
          exact Or.inr ⟨heq, hi c (List.mem_cons_self c m)⟩
      · rcases hb c hc2 with hlt | ⟨heq, _⟩
        · exact Or.inl (Nat.lt_of_le_of_lt h hlt)
        · rcases Nat.lt_or_ge a.2.weight c.2.weight with hlt2 | hge
          · exact Or.inl hlt2
          · have heq2 : a.2.weight = c.2.weight :=
              Nat.le_antisymm (heq ▸ h) hge
            exact Or.inr ⟨heq2, hi c (List.mem_cons_of_mem b hc2)⟩
    · rw [List.orderedInsert, if_neg h]
      have hba : b.2.weight < a.2.weight := Nat.lt_of_not_le h
      refine List.pairwise_cons.mpr ⟨?_, ?_⟩
      · intro c hc
        rcases (List.mem_orderedInsert weightLE).mp hc with rfl | hc2
        · exact Or.inl hba
        · exact hb c hc2
      · exact ih (fun x hx => hi x (List.mem_cons_of_mem b hx)) hm2

theorem insertionSort_lex (idxR : Nat → Nat → Prop) :
    ∀ (l : List (Nat × Edge)), l.Pairwise (fun a b => idxR a.1 b.1) →
      (l.insertionSort weightLE).Pairwise (ascLexOf idxR) := by
  intro l
  induction l with
  | nil =>
    intro _
    simp
  | cons a l ih =>
    intro hl
    rcases List.pairwise_cons.mp hl with ⟨ha, hl2⟩
    rw [List.insertionSort]
    refine orderedInsert_lex idxR a _ ?_ (ih hl2)
    intro b hb
    exact ha b ((List.mem_insertionSort weightLE).mp hb)

theorem enum_pairwise_idx (l : List Edge) :
    (l.enum).Pairwise (fun a b : Nat × Edge => a.1 < b.1) := by
  rw [List.pairwise_iff_getElem]
  intro i j hi hj hij
  rw [List.getElem_enum, List.getElem_enum]
  exact hij

theorem enum_reverse_pairwise_idx (l : List Edge) :
    (l.enum.reverse).Pairwise (fun a b : Nat × Edge => b.1 < a.1) := by
  rw [List.pairwise_reverse]
  exact enum_pairwise_idx l

/-- The pandas descending sort output is sorted by weight strictly decreasing
with ties of equal weight in strictly increasing original row order, i.e.
ties keep the original input order (stable descending sort). -/
theorem pandasSortDesc_pairwise (edges : List Edge) :
    (pandasSortDesc edges).Pairwise descLex := by
  unfold pandasSortDesc
  rw [List.pairwise_reverse]
  have h := insertionSort_lex (fun i j => j < i) (edges.enum.reverse)
    (enum_reverse_pairwise_idx edges)
  refine h.imp ?_
  rintro a b (hlt | ⟨heq, hidx⟩)
  · exact Or.inl hlt
  · exact Or.inr ⟨heq.symm, hidx⟩

/-- The descending sort permutes the input edge rows. -/
theorem sortEdgesDesc_perm (edges : List Edge) :
    (sortEdgesDesc edges).Perm edges := by
  unfold sortEdgesDesc pandasSortDesc
  have h1 : (((edges.enum.reverse).insertionSort weightLE).reverse).map
      Prod.snd |>.Perm
      (((edges.enum.reverse).insertionSort weightLE).map Prod.snd) :=
    (List.reverse_perm _).map Prod.snd
  have h2 : (((edges.enum.reverse).insertionSort weightLE).map Prod.snd).Perm
      ((edges.enum.reverse).map Prod.snd) :=
    (List.perm_insertionSort weightLE _).map Prod.snd
  have h3 : ((edges.enum.reverse).map Prod.snd).Perm ((edges.enum).map
      Prod.snd) :=
    (List.reverse_perm _).map Prod.snd
  rw [List.enum_map_snd] at h3
  exact ((h1.trans h2).trans h3)

/-! ### Claim theorems -/

/-- Claim C4: every node id in the visibleNodes output has
count >= minNodeCount, where an id absent from the node table is treated as
having count 0; such an id can only be visible when minNodeCount = 0, and
missing ids always look up to count 0. -/
theorem c4_visible_nodes_pass_threshold (t : NodeTable) (edges : List Edge)
    (maxEdges minC : Nat) (n : String)
    (hn : n ∈ (selectSubgraph t edges maxEdges minC).2) :
    minC ≤ lookupCount t n ∧
    (findRecord t n = none → minC = 0) ∧
    (∀ m, findRecord t m = none → lookupCount t m = 0) := by
  have hp := ((visibleNodes_char t edges maxEdges minC n).mp hn).2
  have habs : ∀ m, findRecord t m = none → lookupCount t m = 0 := by
    intro m hm
    unfold lookupCount
    rw [hm]
  refine ⟨hp, ?_, habs⟩
  intro hnone
  have h0 := habs n hnone
  omega

/-- Witness for C4 at a concrete input: with node A of count 5 and threshold 1,
A is visible and the theorem applies. -/
theorem c4_witness :
    "A" ∈ (selectSubgraph [("A", some 5), ("B", some 3)]
      [⟨"A", "B", 100⟩] 1 1).2 ∧
    1 ≤ lookupCount [("A", some 5), ("B", some 3)] "A" :=
  ⟨by decide,
    (c4_visible_nodes_pass_threshold [("A", some 5), ("B", some 3)]
      [⟨"A", "B", 100⟩] 1 1 "A" (by decide)).1⟩

/-- Claim C5: every edge in the visibleEdges output has both endpoints in
visibleNodes; and an edge whose source id is absent from the node table is
silently dropped whenever the threshold is positive (that endpoint fails
admission), rather than raising an error. -/
theorem c5_visible_edges_endpoints_visible (t : NodeTable) (edges : List Edge)
    (maxEdges minC : Nat) :
    (∀ e ∈ (selectSubgraph t edges maxEdges minC).1,
      e.source ∈ (selectSubgraph t edges maxEdges minC).2 ∧
      e.target ∈ (selectSubgraph t edges maxEdges minC).2) ∧
    (∀ e : Edge, findRecord t e.source = none → 1 ≤ minC →
      e ∉ (selectSubgraph t edges maxEdges minC).1) := by
  constructor
  · intro e he
    rw [visibleEdges_char] at he
    obtain ⟨hin, hkept⟩ := List.mem_filter.mp he
    have hk := hkept
    simp only [edgeKept, passB, Bool.and_eq_true, decide_eq_true_eq] at hk
    rw [visibleNodes_char, visibleNodes_char]
    exact ⟨⟨⟨e, hin, Or.inl rfl⟩, hk.1⟩, ⟨⟨e, hin, Or.inr rfl⟩, hk.2⟩⟩
  · intro e hnone hpos he
    rw [visibleEdges_char] at he
    obtain ⟨_, hkept⟩ := List.mem_filter.mp he
    simp only [edgeKept, passB, Bool.and_eq_true, decide_eq_true_eq] at hkept
    have h0 : lookupCount t e.source = 0 := by
      unfold lookupCount
      rw [hnone]
    omega

/-- Witness for C5 at a concrete input: the kept edge (A,B) has both
endpoints visible, and an edge from an unknown id X is absent from the
output. -/
theorem c5_witness :
    (⟨"A", "B", 100⟩ : Edge) ∈ (selectSubgraph [("A", some 5), ("B", some 3)]
      [⟨"A", "B", 100⟩] 1 1).1 ∧
    ("A" ∈ (selectSubgraph [("A", some 5), ("B", some 3)]
        [⟨"A", "B", 100⟩] 1 1).2 ∧
      "B" ∈ (selectSubgraph [("A", some 5), ("B", some 3)]
        [⟨"A", "B", 100⟩] 1 1).2) ∧
    (⟨"X", "Y", 7⟩ : Edge) ∉ (selectSubgraph [("A", some 5), ("B", some 3)]
      [⟨"X", "Y", 7⟩] 1 1).1 :=
  ⟨by decide,
    (c5_visible_edges_endpoints_visible [("A", some 5), ("B", some 3)]
      [⟨"A", "B", 100⟩] 1 1).1 ⟨"A", "B", 100⟩ (by decide),
    (c5_visible_edges_endpoints_visible [("A", some 5), ("B", some 3)]
      [⟨"X", "Y", 7⟩] 1 1).2 ⟨"X", "Y", 7⟩ (by decide) (by decide)⟩

/-- Claim C6: for every edge list and maxEdges >= 1 the number of output
edges is at most maxEdges, and empty input tables yield empty outputs with no
error (selectSubgraph is a total function). -/
theorem c6_edge_cap_and_empty (t : NodeTable) (edges : List Edge)
    (maxEdges minC : Nat) (h : 1 ≤ maxEdges) :
    (selectSubgraph t edges maxEdges minC).1.length ≤ maxEdges ∧
    selectSubgraph t [] maxEdges minC = ([], []) ∧
    selectSubgraph [] [] maxEdges minC = ([], []) := by
  refine ⟨?_, ?_, ?_⟩
  · rw [visibleEdges_char]
    have h1 := List.length_filter_le (edgeKept t minC)
      ((sortEdgesDesc edges).take maxEdges)
    have h2 := List.length_take_le maxEdges (sortEdgesDesc edges)
    omega
  · simp [selectSubgraph, scanEdges, sortEdgesDesc, pandasSortDesc]
  · simp [selectSubgraph, scanEdges, sortEdgesDesc, pandasSortDesc]

/-- Witness for C6 at a concrete input: two edges, cap 1. -/
theorem c6_witness :
    1 ≤ 1 ∧
    (selectSubgraph [] [⟨"A", "B", 10⟩, ⟨"B", "C", 4⟩] 1 0).1.length ≤ 1 :=
  ⟨by decide,
    (c6_edge_cap_and_empty [] [⟨"A", "B", 10⟩, ⟨"B", "C", 4⟩] 1 0 (by decide)).1⟩

/-- Claim C8: get_edge_color is a pure step function of weight applied to the
fixed base color, agreeing with the ordered first-match alpha table
(50, 0.1), (150, 0.3), (300, 0.5), (500, 0.7), default 1.0; in particular at
weights 50, 51, 500 and 501. -/
theorem c8_edge_color_step (w : Nat) :
    get_edge_color w = "rgba(100, 100, 100, " ++ specAlpha w ++ ")" ∧
    get_edge_color 50 = "rgba(100, 100, 100, 0.1)" ∧
    get_edge_color 51 = "rgba(100, 100, 100, 0.3)" ∧
    get_edge_color 500 = "rgba(100, 100, 100, 0.7)" ∧
    get_edge_color 501 = "rgba(100, 100, 100, 1.0)" := by
  refine ⟨?_, rfl, rfl, rfl, rfl⟩
  unfold get_edge_color specAlpha specAlphaTable
  by_cases h1 : w ≤ 50 <;> by_cases h2 : w ≤ 150 <;>
    by_cases h3 : w ≤ 300 <;> by_cases h4 : w ≤ 500 <;>
      simp [h1, h2, h3, h4]

/-- Claim C9: when the data source fails to load (missing file caught as
FileNotFoundError, or an unreadable file raising any other exception), the
run surfaces a fatal error and never reaches filtering, graph construction or
rendering. -/
theorem c9_load_failure_blocks_render (err : LoadError) (maxEdges minC : Nat) :
    (runApp (.error err) maxEdges minC).reportsFatalError = true ∧
    (∀ g, runApp (.error err) maxEdges minC ≠ Outcome.rendered g) ∧
    runApp (.error .fileNotFound) maxEdges minC =
      .errorStop "파일을 찾을 수 없습니다" := by
  cases err <;>
    exact ⟨rfl, fun g h => Outcome.noConfusion h, rfl⟩

/-- Claim C10: a node id present in the node table whose record lacks the
count attribute looks up to count 0, exactly like an id absent from the
table; it is visible only when minNodeCount = 0, it is admitted under
minNodeCount = 0 whenever it occurs as an endpoint of a truncated edge, and
its tooltip reports count 0. -/
theorem c10_count_attr_missing (t : NodeTable) (id : String)
    (h : findRecord t id = some none) :
    lookupCount t id = 0 ∧
    (∀ t2 : NodeTable, findRecord t2 id = none →
      lookupCount t id = lookupCount t2 id) ∧
    (∀ edges maxEdges minC, id ∈ (selectSubgraph t edges maxEdges minC).2 →
      minC = 0) ∧
    (∀ edges maxEdges, ∀ e ∈ (sortEdgesDesc edges).take maxEdges,
      (id = e.source ∨ id = e.target) →
      id ∈ (selectSubgraph t edges maxEdges 0).2) ∧
    nodeTitle t id = id ++ "\n(등장 횟수: " ++ "0" ++ ")" := by
  have h0 : lookupCount t id = 0 := by
    unfold lookupCount
    rw [h]
  refine ⟨h0, ?_, ?_, ?_, ?_⟩
  · intro t2 h2
    unfold lookupCount
    rw [h, h2]
  · intro edges maxEdges minC hmem
    have hp := ((visibleNodes_char t edges maxEdges minC id).mp hmem).2
    omega
  · intro edges maxEdges e he hp
    exact (visibleNodes_char t edges maxEdges 0 id).mpr
      ⟨⟨e, he, hp⟩, Nat.zero_le _⟩
  · unfold nodeTitle
    rw [h0]
    rfl

/-- Witness for C10 at a concrete input: table with an id X whose record has
no count attribute. -/
theorem c10_witness :
    findRecord [("X", none)] "X" = some none ∧
    lookupCount [("X", none)] "X" = 0 :=
  ⟨by decide, (c10_count_attr_missing [("X", none)] "X" (by decide)).1⟩

/-- Counterexample to claim C1 as stated: on nodes A (count 5) and B
(count 0), the single edge (A,B,100) and minNodeCount 1, the scan admits A on
first encounter regardless of B, so visibleNodes is the singleton A, not the
empty set the claim asserts (visibleEdges is indeed empty). -/
theorem c1_counterexample :
    (selectSubgraph [("A", some 5), ("B", some 0)] [⟨"A", "B", 100⟩] 1 1).1
      = [] ∧
    (selectSubgraph [("A", some 5), ("B", some 0)] [⟨"A", "B", 100⟩] 1 1).2
      = ["A"] ∧
    (selectSubgraph [("A", some 5), ("B", some 0)] [⟨"A", "B", 100⟩] 1 1).2
      ≠ [] := by
  decide

/-- Claim C1 amended: on that input, for any maxEdges >= 1, selectSubgraph
returns visibleEdges = [] and visibleNodes = singleton A: each endpoint is
admitted on first encounter looking only at its own count, so A (count 5) is
admitted even though the edge is dropped because B (count 0) fails. -/
theorem c1_amended (maxEdges : Nat) (h : 1 ≤ maxEdges) :
    selectSubgraph [("A", some 5), ("B", some 0)] [⟨"A", "B", 100⟩]
      maxEdges 1 = ([], ["A"]) := by
  have hs : sortEdgesDesc [⟨"A", "B", 100⟩] = [⟨"A", "B", 100⟩] := by decide
  have h1 : (sortEdgesDesc [⟨"A", "B", 100⟩]).take maxEdges
      = [⟨"A", "B", 100⟩] := by
    rw [hs]
    cases maxEdges with
    | zero => omega
    | succ k => rw [List.take_succ_cons, List.take_nil]
  unfold selectSubgraph
  dsimp only
  rw [h1]
  decide

/-- Witness for the amended C1 at maxEdges = 1. -/
theorem c1_amended_witness :
    1 ≤ 1 ∧
    selectSubgraph [("A", some 5), ("B", some 0)] [⟨"A", "B", 100⟩] 1 1
      = ([], ["A"]) :=
  ⟨by decide, c1_amended 1 (by decide)⟩

/-- Claim C2: selectSubgraph orders edges by weight descending before
truncating to maxEdges — the sorted list is a permutation of the input rows,
pairwise weight-descending, and ties of equal weight are broken by the
original input order (pandas nargsort pre-reverses the rows and re-reverses
the ascending argsort result, so the descending sort is stable); the same
order holds on every truncated list, so of two equal-weight edges the earlier
one in the input appears earlier in, and is preferred for inclusion in, the
truncated list. -/
theorem c2_sort_descending_stable (edges : List Edge) :
    (sortEdgesDesc edges).Perm edges ∧
    (pandasSortDesc edges).Pairwise descLex ∧
    (∀ maxEdges, ((pandasSortDesc edges).take maxEdges).Pairwise descLex) :=
  ⟨sortEdgesDesc_perm edges, pandasSortDesc_pairwise edges,
    fun maxEdges =>
      (pandasSortDesc_pairwise edges).sublist (List.take_sublist maxEdges _)⟩

/-- Counterexample to claim C3 as stated: in the rendered graph with edges
(A,B) and (C,D), hovering A and then re-entering hover on C leaves node A at
the enlarged size 45 (the dim update carries no size attribute), whereas
hovering C from the freshly rendered state leaves A at size 25 — so the
per-node visual state after hoverEnter depends on the previous hover, not
only on the new hovered node and the adjacency. -/
theorem c3_counterexample :
    (hoverEnter [⟨"A", "B", 1⟩, ⟨"C", "D", 1⟩] ["A", "B", "C", "D"] "C"
        (hoverEnter [⟨"A", "B", 1⟩, ⟨"C", "D", 1⟩] ["A", "B", "C", "D"] "A"
          (fun _ => initialStyle)) "A").size = 45 ∧
    (hoverEnter [⟨"A", "B", 1⟩, ⟨"C", "D", 1⟩] ["A", "B", "C", "D"] "C"
        (fun _ => initialStyle) "A").size = 25 ∧
    hoverEnter [⟨"A", "B", 1⟩, ⟨"C", "D", 1⟩] ["A", "B", "C", "D"] "C"
        (hoverEnter [⟨"A", "B", 1⟩, ⟨"C", "D", 1⟩] ["A", "B", "C", "D"] "A"
          (fun _ => initialStyle)) "A"
      ≠ hoverEnter [⟨"A", "B", 1⟩, ⟨"C", "D", 1⟩] ["A", "B", "C", "D"] "C"
          (fun _ => initialStyle) "A" := by
  refine ⟨rfl, rfl, ?_⟩
  intro h
  have h45 : (hoverEnter [⟨"A", "B", 1⟩, ⟨"C", "D", 1⟩] ["A", "B", "C", "D"]
      "C" (hoverEnter [⟨"A", "B", 1⟩, ⟨"C", "D", 1⟩] ["A", "B", "C", "D"] "A"
        (fun _ => initialStyle)) "A").size = 45 := rfl
  have h25 : (hoverEnter [⟨"A", "B", 1⟩, ⟨"C", "D", 1⟩] ["A", "B", "C", "D"]
      "C" (fun _ => initialStyle) "A").size = 25 := rfl
  rw [h] at h45
  rw [h25] at h45
  exact absurd h45 (by decide)

/-- Claim C3 amended: hoverEnter sets every rendered node of the connected
set (neighbors of the hovered node plus the hovered node itself) to the full
emphasized style, and recolors every other rendered node to the dimmed color
and dimmed font; the dim update however does not reset size, so a dimmed
node keeps whatever size it had before the event, and after a re-entrant
hoverEnter a previously emphasized node that is no longer adjacent keeps the
enlarged size — per-node state is not a pure function of the new hovered
node alone. -/
theorem c3_amended (es : List Edge) (visible : List String) (hovered : String)
    (st : String → NodeStyle) (n : String) (hn : n ∈ visible) :
    (inConnectedSet es hovered n = true →
      hoverEnter es visible hovered st n
        = ⟨45, "#FF9F1C", ⟨some 25, some "white"⟩⟩) ∧
    (inConnectedSet es hovered n = false →
      hoverEnter es visible hovered st n
        = ⟨(st n).size, "#E0E0E0", ⟨none, some "#888888"⟩⟩) := by
  constructor
  · intro hc
    simp [hoverEnter, hn, hc, applyUpdate, emphUpdate]
  · intro hc
    simp [hoverEnter, hn, hc, applyUpdate, dimUpdate]

/-- Witness for the amended C3: hovering A in the one-edge graph (A,B)
emphasizes the neighbor B. -/
theorem c3_amended_witness :
    "B" ∈ ["A", "B"] ∧
    inConnectedSet [⟨"A", "B", 1⟩] "A" "B" = true ∧
    hoverEnter [⟨"A", "B", 1⟩] ["A", "B"] "A" (fun _ => initialStyle) "B"
      = ⟨45, "#FF9F1C", ⟨some 25, some "white"⟩⟩ :=
  ⟨by decide, by decide,
    (c3_amended [⟨"A", "B", 1⟩] ["A", "B"] "A" (fun _ => initialStyle) "B"
      (by decide)).1 (by decide)⟩

/-- Claim C7: with the tables and the other parameter fixed, raising
minNodeCount never increases the number of visible nodes, and raising
maxEdges never decreases the number of visible edges. -/
theorem c7_monotonicity (t : NodeTable) (edges : List Edge)
    (maxEdges minC minC2 k k2 : Nat) (hmin : minC ≤ minC2) (hk : k ≤ k2) :
    (selectSubgraph t edges maxEdges minC2).2.length ≤
      (selectSubgraph t edges maxEdges minC).2.length ∧
    (selectSubgraph t edges k minC).1.length ≤
      (selectSubgraph t edges k2 minC).1.length := by
  constructor
  · have hsub : (selectSubgraph t edges maxEdges minC2).2 ⊆
        (selectSubgraph t edges maxEdges minC).2 := by
      intro n hn
      obtain ⟨hex, hp⟩ := (visibleNodes_char t edges maxEdges minC2 n).mp hn
      exact (visibleNodes_char t edges maxEdges minC n).mpr
        ⟨hex, Nat.le_trans hmin hp⟩
    exact ((visibleNodes_nodup t edges maxEdges minC2).subperm hsub).length_le
  · rw [visibleEdges_char, visibleEdges_char]
    have htk : (sortEdgesDesc edges).take k
        = ((sortEdgesDesc edges).take k2).take k := by
      rw [List.take_take, Nat.min_eq_left hk]
    have hsl : ((sortEdgesDesc edges).take k).Sublist
        ((sortEdgesDesc edges).take k2) := by
      rw [htk]
      exact List.take_sublist k _
    exact (hsl.filter (edgeKept t minC)).length_le

/-- Witness for C7 at a concrete input: threshold raised from 0 to 1 and cap
raised from 1 to 2 on a two-edge graph. -/
theorem c7_witness :
    0 ≤ 1 ∧ 1 ≤ 2 ∧
    ((selectSubgraph [("A", some 5)] [⟨"A", "B", 10⟩, ⟨"B", "C", 4⟩] 2 1).2.length ≤
      (selectSubgraph [("A", some 5)] [⟨"A", "B", 10⟩, ⟨"B", "C", 4⟩] 2 0).2.length ∧
    (selectSubgraph [("A", some 5)] [⟨"A", "B", 10⟩, ⟨"B", "C", 4⟩] 1 0).1.length ≤
      (selectSubgraph [("A", some 5)] [⟨"A", "B", 10⟩, ⟨"B", "C", 4⟩] 2 0).1.length) :=
  ⟨by decide, by decide,
    c7_monotonicity [("A", some 5)] [⟨"A", "B", 10⟩, ⟨"B", "C", 4⟩]
      2 0 1 1 2 (by decide) (by decide)⟩
